import Mathlib

/-!
Shallow embedding of the objld OBJ loader (src/lib.rs and examples/opengl.rs)
and verification of the specification claims about it.

Modelling conventions:
* Input text is a `List Char`; a nom parser `IResult<&str, A>` becomes
  `List Char → Option (List Char × A)` (`none` is a parse error; the error
  payload carried by `nom::Err` is not needed by any claim).
* The numeric types are the ones fixed by the example driver
  (`LineResult<f32, i32>`): floats are modelled as exact rationals `ℚ`
  (an `f32` value is an exact rational, and `consume_num` tokens are always
  accepted by `f32::from_str`; f32 rounding of parsed literals is not
  modelled since no claim depends on it), indices as `ℤ` with the `i32`
  range check that `i32::from_str` performs.
* Rust panics (`unwrap` on `None`, out-of-bounds `Vec` indexing, which abort
  the resolution passes) are modelled by `Option`: a pass returns `none`
  exactly when the Rust code panics.
* The `HashMap<ParsedVertex, u32>` of the deduplicator is modelled by an
  association list keyed by the quantization key (the `Eq`/`Hash` instances
  of `ParsedVertex` compare `F32Wrapper.key` values, so map lookup is lookup
  by key).  The only behaviour of the real map that is not a function of the
  input is the iteration order of the final fill loop; that order is exposed
  as an explicit parameter of `dedupWithOrder`.
-/

namespace Objld

/-- Carriage return, the character at issue in the CRLF claims. -/
def crChar : Char := Char.ofNat 13

/-- Newline, the separator used by `parse_file`. -/
def nlChar : Char := Char.ofNat 10

/-- The comment character. -/
def hashChar : Char := Char.ofNat 35

/-- Space character. -/
def spaceChar : Char := Char.ofNat 32

/-- Tab character. -/
def tabChar : Char := Char.ofNat 9

/-- nom `space0`/`space1` recognize exactly spaces and tabs. -/
def isSpaceTab (c : Char) : Bool := c == spaceChar || c == tabChar

/-- Type of line parsers: `&str -> IResult<&str, α>` up to error payloads. -/
abbrev LP (α : Type) := List Char → Option (List Char × α)

/-- Embeds `VertexData<T>` from src/lib.rs at `T = f32` (modelled as `ℚ`). -/
inductive VertexData where
  | Coord2 (x y : ℚ)
  | Coord3 (x y z : ℚ)
  | Normal (x y z : ℚ)
  | TextureCoord3 (u v w : ℚ)
  | TextureCoord2 (u v : ℚ)
  | TextureCoord1 (u : ℚ)
deriving DecidableEq, Repr

/-- Embeds `VertexIndeces<I>` from src/lib.rs at `I = i32` (modelled as `ℤ`). -/
structure VertexIndeces where
  coord_rindex : ℤ
  texcoord_rindex : Option ℤ
  normal_rindex : Option ℤ
deriving DecidableEq, Repr

/-- Embeds `Face<I>` from src/lib.rs. -/
inductive Face where
  | Face3 (v1 v2 v3 : VertexIndeces)
  | Face4 (v1 v2 v3 v4 : VertexIndeces)
deriving DecidableEq, Repr

/-- Embeds `LineResult` from src/lib.rs.  The `Error` variant drops the
`nom::Err` payload, which no claim inspects. -/
inductive LineResult where
  | VertDataLine (v : VertexData)
  | FaceLine (f : Face)
  | NoData
  | Error
deriving DecidableEq, Repr

/-- Value of a digit list read in base 10 (used by the `FromStr` models). -/
def digitsVal (ds : List Char) : ℕ :=
  ds.foldl (fun a c => a * 10 + (c.toNat - 48)) 0

/-- Embeds `i32::from_str` as used by `parse_num::<i32>`: optional sign, one
or more decimal digits, nothing else, with the `i32` range check. -/
def intFromStr (tok : List Char) : Option ℤ :=
  let sr : ℤ × List Char :=
    match tok with
    | c :: t =>
      if c = Char.ofNat 45 then (-1, t)
      else if c = Char.ofNat 43 then (1, t)
      else (1, tok)
    | [] => (1, [])
  if sr.2 ≠ [] ∧ sr.2.all Char.isDigit then
    let v : ℤ := sr.1 * (digitsVal sr.2 : ℤ)
    if -2147483648 ≤ v ∧ v ≤ 2147483647 then some v else none
  else none

/-- Embeds `f32::from_str` restricted to the token shapes produced by
`consume_num` (optional sign, digits, optional dot, digits); on those shapes
`f32::from_str` always succeeds.  The value is the exact decimal rational
`sign * (whole * 10^k + frac) / 10^k` where `k` is the number of fractional
digits (built with `mkRat` so that it evaluates by kernel reduction). -/
def ratFromStr (tok : List Char) : Option ℚ :=
  let sr : ℤ × List Char :=
    match tok with
    | c :: t =>
      if c = Char.ofNat 45 then (-1, t)
      else if c = Char.ofNat 43 then (1, t)
      else (1, tok)
    | [] => (1, [])
  let w := sr.2.takeWhile Char.isDigit
  let r2 := sr.2.dropWhile Char.isDigit
  if w = [] then none
  else
    match r2 with
    | [] => some (mkRat (sr.1 * digitsVal w) 1)
    | c :: t =>
      if c = Char.ofNat 46 ∧ t.all Char.isDigit then
        some (mkRat (sr.1 * (digitsVal w * 10 ^ t.length + digitsVal t)) (10 ^ t.length))
      else none

/-- Tail of `consume_num` after the optional sign: `digit1`, `opt('.')`,
`digit0`, returning (remainder, recognized token). -/
def numTail (sgn : List Char) (s1 : List Char) : Option (List Char × List Char) :=
  let ds := s1.takeWhile Char.isDigit
  let s2 := s1.dropWhile Char.isDigit
  if ds.isEmpty then none
  else
    match s2 with
    | [] => some ([], sgn ++ ds)
    | c :: t =>
      if c = Char.ofNat 46 then
        some (t.dropWhile Char.isDigit, sgn ++ ds ++ [c] ++ t.takeWhile Char.isDigit)
      else some (c :: t, sgn ++ ds)

/-- Embeds `consume_num`: `recognize(opt(one_of("+-")), digit1, opt(char('.')), digit0)`. -/
def consume_num : LP (List Char) := fun s =>
  match s with
  | [] => numTail [] []
  | c :: t =>
    if c = Char.ofNat 43 ∨ c = Char.ofNat 45 then numTail [c] t
    else numTail [] (c :: t)

/-- Embeds `parse_float::<f32>`: `consume_num` then `f32::from_str`. -/
def parse_float : LP ℚ := fun s =>
  match consume_num s with
  | none => none
  | some r =>
    match ratFromStr r.2 with
    | none => none
    | some v => some (r.1, v)

/-- Embeds `parse_num::<i32>`: `consume_num` then `i32::from_str`. -/
def parse_num : LP ℤ := fun s =>
  match consume_num s with
  | none => none
  | some r =>
    match intFromStr r.2 with
    | none => none
    | some v => some (r.1, v)

/-- Embeds nom `space0` (always succeeds, drops spaces/tabs). -/
def pspace0 : LP Unit := fun s => some (s.dropWhile isSpaceTab, ())

/-- Embeds nom `space1` (requires at least one space/tab). -/
def pspace1 : LP Unit := fun s =>
  match s with
  | c :: t => if isSpaceTab c then some (t.dropWhile isSpaceTab, ()) else none
  | [] => none

/-- Recursive worker for `tagP`. -/
def tagRun : List Char → List Char → Option (List Char)
  | [], s => some s
  | _ :: _, [] => none
  | c :: ct, d :: dt => if c = d then tagRun ct dt else none

/-- Embeds nom `tag(t)` (the matched slice is discarded by every caller). -/
def tagP (t : List Char) : LP Unit := fun s =>
  match tagRun t s with
  | some r => some (r, ())
  | none => none

/-- Embeds nom `char(c)`. -/
def charP (c : Char) : LP Char := fun s =>
  match s with
  | d :: t => if d = c then some (t, d) else none
  | [] => none

/-- Embeds nom `opt(p)` (never fails). -/
def popt {α : Type} (p : LP α) : LP (Option α) := fun s =>
  match p s with
  | some r => some (r.1, some r.2)
  | none => some (s, none)

/-- Embeds nom `tuple((p, q))`. -/
def pseq {α β : Type} (p : LP α) (q : LP β) : LP (α × β) := fun s =>
  match p s with
  | none => none
  | some r =>
    match q r.1 with
    | none => none
    | some r2 => some (r2.1, (r.2, r2.2))

/-- Embeds nom `map(p, f)`. -/
def pmap {α β : Type} (p : LP α) (f : α → β) : LP β := fun s =>
  match p s with
  | none => none
  | some r => some (r.1, f r.2)

/-- Embeds nom `alt((p, q))` restricted to two branches; `parse_line` chains it. -/
def porelse {α : Type} (p q : LP α) : LP α := fun s =>
  match p s with
  | some r => some r
  | none => q s

/-- Embeds `consume_comment`: `recognize(space0, char('#'), rest)`.  `rest`
consumes all remaining input, so the remainder on success is `[]`.  The
recognized slice is discarded by the caller, hence the `Unit` value. -/
def consume_comment : LP Unit := fun s =>
  match s.dropWhile isSpaceTab with
  | c :: _ => if c = hashChar then some ([], ()) else none
  | [] => none

/-- Embeds `end_line`: `recognize(space0, opt(consume_comment), eof)`. -/
def end_line : LP Unit := fun s =>
  let s1 := s.dropWhile isSpaceTab
  let s2 :=
    match consume_comment s1 with
    | some r => r.1
    | none => s1
  match s2 with
  | [] => some ([], ())
  | _ :: _ => none

/-- Embeds `parse_coord2`: `tuple((space0, tag("v"), space1, parse_float, space1, parse_float))`. -/
def parse_coord2 : LP VertexData :=
  pmap (pseq pspace0 (pseq (tagP [Char.ofNat 118])
    (pseq pspace1 (pseq parse_float (pseq pspace1 parse_float)))))
    (fun d => VertexData.Coord2 d.2.2.2.1 d.2.2.2.2.2)

/-- Embeds `parse_coord3`. -/
def parse_coord3 : LP VertexData :=
  pmap (pseq pspace0 (pseq (tagP [Char.ofNat 118])
    (pseq pspace1 (pseq parse_float (pseq pspace1 (pseq parse_float (pseq pspace1 parse_float)))))))
    (fun d => VertexData.Coord3 d.2.2.2.1 d.2.2.2.2.2.1 d.2.2.2.2.2.2.2)

/-- Embeds `parse_normal` (`tag("vn")`, three floats). -/
def parse_normal : LP VertexData :=
  pmap (pseq pspace0 (pseq (tagP [Char.ofNat 118, Char.ofNat 110])
    (pseq pspace1 (pseq parse_float (pseq pspace1 (pseq parse_float (pseq pspace1 parse_float)))))))
    (fun d => VertexData.Normal d.2.2.2.1 d.2.2.2.2.2.1 d.2.2.2.2.2.2.2)

/-- Embeds `parse_texcoord1` (`tag("vt")`, one float). -/
def parse_texcoord1 : LP VertexData :=
  pmap (pseq pspace0 (pseq (tagP [Char.ofNat 118, Char.ofNat 116])
    (pseq pspace1 parse_float)))
    (fun d => VertexData.TextureCoord1 d.2.2.2)

/-- Embeds `parse_texcoord2` (`tag("vt")`, two floats). -/
def parse_texcoord2 : LP VertexData :=
  pmap (pseq pspace0 (pseq (tagP [Char.ofNat 118, Char.ofNat 116])
    (pseq pspace1 (pseq parse_float (pseq pspace1 parse_float)))))
    (fun d => VertexData.TextureCoord2 d.2.2.2.1 d.2.2.2.2.2)

/-- Embeds `parse_texcoord3` (`tag("vt")`, three floats). -/
def parse_texcoord3 : LP VertexData :=
  pmap (pseq pspace0 (pseq (tagP [Char.ofNat 118, Char.ofNat 116])
    (pseq pspace1 (pseq parse_float (pseq pspace1 (pseq parse_float (pseq pspace1 parse_float)))))))
    (fun d => VertexData.TextureCoord3 d.2.2.2.1 d.2.2.2.2.2.1 d.2.2.2.2.2.2.2)

/-- Embeds `parse_face_vertex`: `tuple((parse_num, char('/'), opt(parse_num), char('/'), opt(parse_num)))`.
Both slash characters are mandatory in the source. -/
def parse_face_vertex : LP VertexIndeces :=
  pmap (pseq parse_num (pseq (charP (Char.ofNat 47))
    (pseq (popt parse_num) (pseq (charP (Char.ofNat 47)) (popt parse_num)))))
    (fun d => ⟨d.1, d.2.2.1, d.2.2.2.2⟩)

/-- Embeds `parse_face3` (`tag("f")`, three corner fields). -/
def parse_face3 : LP Face :=
  pmap (pseq pspace0 (pseq (tagP [Char.ofNat 102])
    (pseq pspace1 (pseq parse_face_vertex (pseq pspace1 (pseq parse_face_vertex (pseq pspace1 parse_face_vertex)))))))
    (fun d => Face.Face3 d.2.2.2.1 d.2.2.2.2.2.1 d.2.2.2.2.2.2.2)

/-- Embeds `parse_face4` (`tag("f")`, four corner fields). -/
def parse_face4 : LP Face :=
  pmap (pseq pspace0 (pseq (tagP [Char.ofNat 102])
    (pseq pspace1 (pseq parse_face_vertex (pseq pspace1 (pseq parse_face_vertex (pseq pspace1 (pseq parse_face_vertex (pseq pspace1 parse_face_vertex)))))))))
    (fun d => Face.Face4 d.2.2.2.1 d.2.2.2.2.2.1 d.2.2.2.2.2.2.2.1 d.2.2.2.2.2.2.2.2.2)

/-- Embeds `map(tuple((p, end_line)), |(v, _)| f v)`, the shape of every
non-blank alternative of `parse_line`. -/
def withEnd {α : Type} (p : LP α) (f : α → LineResult) : LP LineResult := fun s =>
  match p s with
  | none => none
  | some r =>
    match end_line r.1 with
    | none => none
    | some r2 => some (r2.1, f r.2)

/-- Embeds `parse_line`, preserving the source's alternative order. -/
def parse_line : LP LineResult := fun s =>
  porelse (pmap end_line (fun _ => LineResult.NoData))
  (porelse (withEnd parse_texcoord1 LineResult.VertDataLine)
  (porelse (withEnd parse_coord2 LineResult.VertDataLine)
  (porelse (withEnd parse_texcoord2 LineResult.VertDataLine)
  (porelse (withEnd parse_coord3 LineResult.VertDataLine)
  (porelse (withEnd parse_normal LineResult.VertDataLine)
  (porelse (withEnd parse_texcoord3 LineResult.VertDataLine)
  (porelse (withEnd parse_face3 LineResult.FaceLine)
  (withEnd parse_face4 LineResult.FaceLine)))))))) s

/-- Splits on the newline character, like `str::par_split('\n')`:
`"a\nb"` gives `[a, b]`, a trailing newline yields a trailing empty piece. -/
def splitNl : List Char → List (List Char)
  | [] => [[]]
  | c :: t =>
    match splitNl t with
    | [] => [[]]
    | h :: r => if c = nlChar then [] :: h :: r else (c :: h) :: r

/-- Embeds `parse_file`: one `LineResult` per newline-delimited line, in
order (rayon's parallel map is order-preserving); a failed `parse_line`
becomes `LineResult.Error`. -/
def parse_file (input : String) : List LineResult :=
  (splitNl input.toList).map fun line =>
    match parse_line line with
    | some r => r.2
    | none => LineResult.Error

/-- Embeds `RawData3D` from examples/opengl.rs. -/
structure RawData3D where
  vertex_pos : List (ℚ × ℚ × ℚ)
  vertex_tex : List (ℚ × ℚ)
  vertex_norm : List (ℚ × ℚ × ℚ)
  vert_ind : List VertexIndeces
deriving DecidableEq, Repr

/-- Embeds `RawData3D::default()`. -/
def emptyRaw : RawData3D := ⟨[], [], [], []⟩

/-- One iteration of the `to_raw_data3d` loop.  `Coord2`, `TextureCoord1`
and `TextureCoord3` fall into the `_ => {}` arm; `Error` is printed and
ignored. -/
def aggStep (r : RawData3D) (line : LineResult) : RawData3D :=
  match line with
  | LineResult.VertDataLine v =>
    match v with
    | VertexData.Coord3 x y z => { r with vertex_pos := r.vertex_pos ++ [(x, y, z)] }
    | VertexData.Normal x y z => { r with vertex_norm := r.vertex_norm ++ [(x, y, z)] }
    | VertexData.TextureCoord2 u v => { r with vertex_tex := r.vertex_tex ++ [(u, v)] }
    | _ => r
  | LineResult.FaceLine f =>
    match f with
    | Face.Face3 v1 v2 v3 => { r with vert_ind := r.vert_ind ++ [v1, v2, v3] }
    | Face.Face4 v1 v2 v3 v4 => { r with vert_ind := r.vert_ind ++ [v1, v2, v3, v3, v4, v1] }
  | LineResult.NoData => r
  | LineResult.Error => r

/-- Embeds `to_raw_data3d`. -/
def to_raw_data3d (parsed_data : List LineResult) : RawData3D :=
  parsed_data.foldl aggStep emptyRaw

/-- Truncation toward zero, the semantics of Rust's `as i64` cast on floats. -/
def ratTrunc (q : ℚ) : ℤ := if 0 ≤ q then ⌊q⌋ else -⌊-q⌋

/-- Embeds `F32Wrapper::key`: `whole = x as i64`, `frac = ((x as f64 - whole
as f64) * 10f64.powi(7)) as i64`, `key = (whole * 10i64.pow(7) + frac) as
u64`.  For `f32` inputs every intermediate f64 step is exact (the fractional
part of an f32 is exactly representable, and its product with `10^7` needs at
most 41 significand bits), so the whole computation is the exact rational one
modelled here; the final `as u64` cast wraps modulo `2^64`.  The `as i64`
saturation beyond `±2^63` is not modelled (unreachable for mesh data).
The fractional term `(x - whole) * 10^7` is written as the equal fraction
`((q.num - whole * q.den) * 10^7) / q.den` via `mkRat` so that the key
evaluates by kernel reduction (`F32Wrapper.key_eq` relates the two forms). -/
def F32Wrapper.key (q : ℚ) : ℤ :=
  (ratTrunc q * 10 ^ 7 + ratTrunc (mkRat ((q.num - ratTrunc q * q.den) * 10 ^ 7) q.den)) % 2 ^ 64

/-- Embeds `ParsedVertex` from examples/opengl.rs (`F32Wrapper` unwrapped to
its rational payload; the wrapper only changes `Eq`/`Hash`, which the
deduplication model routes through `parsedVertexKey`). -/
structure ParsedVertex where
  pos : ℚ × ℚ × ℚ
  tex : ℚ × ℚ
  norm : ℚ × ℚ × ℚ
deriving DecidableEq, Repr

/-- The tuple of `F32Wrapper::key` values that `ParsedVertex`'s derived
`Eq`/`Hash` instances actually compare. -/
structure PVKey where
  pos1 : ℤ
  pos2 : ℤ
  pos3 : ℤ
  tex1 : ℤ
  tex2 : ℤ
  norm1 : ℤ
  norm2 : ℤ
  norm3 : ℤ
deriving DecidableEq, Repr

/-- Key of a resolved vertex, componentwise `F32Wrapper::key`. -/
def parsedVertexKey (v : ParsedVertex) : PVKey :=
  ⟨F32Wrapper.key v.pos.1, F32Wrapper.key v.pos.2.1, F32Wrapper.key v.pos.2.2,
   F32Wrapper.key v.tex.1, F32Wrapper.key v.tex.2,
   F32Wrapper.key v.norm.1, F32Wrapper.key v.norm.2.1, F32Wrapper.key v.norm.2.2⟩

/-- Embeds the shared index-resolution expression of both passes:
`if ind < 0 { len as i32 + ind } else { ind }`.  Note the positive branch
returns `ind` itself, not `ind - 1`. -/
def resolveIndex (len : ℕ) (k : ℤ) : ℤ := if k < 0 then (len : ℤ) + k else k

/-- Embeds `Vec` indexing `l[k as usize]`: out-of-range (including the wrap
of a negative `i32` cast to `usize`) panics, i.e. `none`. -/
def lookupAt {α : Type} (l : List α) (k : ℤ) : Option α :=
  if h : 0 ≤ k ∧ k.toNat < l.length then some (l.get ⟨k.toNat, h.2⟩) else none

/-- Embeds the per-corner body shared verbatim by `to_opengl_data3d_dedup`
and `to_opengl_data3d_simple`: the two `unwrap()`s on the optional indices
followed by the three indexings. -/
def resolveCorner (raw : RawData3D) (v : VertexIndeces) : Option ParsedVertex :=
  match v.texcoord_rindex with
  | none => none
  | some tex_ind =>
    match v.normal_rindex with
    | none => none
    | some norm_ind =>
      match lookupAt raw.vertex_pos (resolveIndex raw.vertex_pos.length v.coord_rindex) with
      | none => none
      | some pos_tuple =>
        match lookupAt raw.vertex_tex (resolveIndex raw.vertex_tex.length tex_ind) with
        | none => none
        | some tex_tuple =>
          match lookupAt raw.vertex_norm (resolveIndex raw.vertex_norm.length norm_ind) with
          | none => none
          | some norm_tuple => some ⟨pos_tuple, tex_tuple, norm_tuple⟩

/-- Option-valued map modelling a Rust for-loop that panics at the first bad
element. -/
def mapMO {α β : Type} (f : α → Option β) : List α → Option (List β)
  | [] => some []
  | a :: t =>
    match f a with
    | none => none
    | some b =>
      match mapMO f t with
      | none => none
      | some bs => some (b :: bs)

/-- Embeds `OpenGLData3D`. -/
structure OpenGLData3D where
  vertex_pos : List (ℚ × ℚ × ℚ)
  vertex_tex : List (ℚ × ℚ)
  vertex_norm : List (ℚ × ℚ × ℚ)
  indecies : List ℕ
deriving DecidableEq, Repr

/-- Embeds `to_opengl_data3d_simple`: per corner, resolve and push the three
attribute tuples and the running index (`index[i] = i`). -/
def to_opengl_data3d_simple (raw : RawData3D) : Option OpenGLData3D :=
  match mapMO (resolveCorner raw) raw.vert_ind with
  | none => none
  | some pvs =>
    some { vertex_pos := pvs.map (fun p => p.pos),
           vertex_tex := pvs.map (fun p => p.tex),
           vertex_norm := pvs.map (fun p => p.norm),
           indecies := List.range pvs.length }

/-- One entry of the deduplication map, in insertion order: key, assigned
dense id, and the resolved attribute triple recorded for that id. -/
structure Entry where
  key : PVKey
  id : ℕ
  val : ParsedVertex
deriving DecidableEq, Repr

/-- Association-list lookup by key, modelling `HashMap::get` (the map's
`Eq` compares `ParsedVertex` keys). -/
def lookupEnt (k : PVKey) : List Entry → Option ℕ
  | [] => none
  | e :: t => if e.key = k then some e.id else lookupEnt k t

/-- State of the deduplication loop: the map (in insertion order), the next
fresh id `curr_ind`, and the output index list. -/
structure DState where
  ents : List Entry
  curr_ind : ℕ
  indecies : List ℕ
deriving DecidableEq, Repr

/-- One iteration of the `to_opengl_data3d_dedup` corner loop. -/
def dedupStep (st : DState) (pv : ParsedVertex) : DState :=
  match lookupEnt (parsedVertexKey pv) st.ents with
  | some repeated_ind => { st with indecies := st.indecies ++ [repeated_ind] }
  | none =>
    { ents := st.ents ++ [⟨parsedVertexKey pv, st.curr_ind, pv⟩],
      curr_ind := st.curr_ind + 1,
      indecies := st.indecies ++ [st.curr_ind] }

/-- The deduplication corner loop from the empty state. -/
def dedupRun (pvs : List ParsedVertex) : DState :=
  pvs.foldl dedupStep ⟨[], 0, []⟩

/-- First phase of `to_opengl_data3d_dedup`: resolve all corners (panicking
on a bad one) and run the deduplication loop, yielding the map entries and
the index buffer. -/
def dedupCore (raw : RawData3D) : Option (List Entry × List ℕ) :=
  match mapMO (resolveCorner raw) raw.vert_ind with
  | none => none
  | some pvs => some ((dedupRun pvs).ents, (dedupRun pvs).indecies)

/-- One iteration of the fill loop `for (v, i) in h`: write the recorded
triple at slot `i` of each attribute array. -/
def writeEnt (o : OpenGLData3D) (e : Entry) : OpenGLData3D :=
  { o with vertex_pos := o.vertex_pos.set e.id e.val.pos,
           vertex_tex := o.vertex_tex.set e.id e.val.tex,
           vertex_norm := o.vertex_norm.set e.id e.val.norm }

/-- Second phase of `to_opengl_data3d_dedup`: `resize` the three attribute
arrays to `h.len()` and fill them by iterating the map entries in the given
order. -/
def fillEnts (idx : List ℕ) (n : ℕ) (order : List Entry) : OpenGLData3D :=
  order.foldl writeEnt
    { vertex_pos := List.replicate n (0, 0, 0),
      vertex_tex := List.replicate n (0, 0),
      vertex_norm := List.replicate n (0, 0, 0),
      indecies := idx }

/-- Embeds `to_opengl_data3d_dedup` with the hash map's iteration order in
the fill loop exposed as a parameter (the only input-independent behaviour
of `HashMap`). -/
def dedupWithOrder (raw : RawData3D) (order : List Entry) : Option OpenGLData3D :=
  match dedupCore raw with
  | none => none
  | some r => some (fillEnts r.2 r.1.length order)

/-- Embeds `to_opengl_data3d_dedup`, iterating the fill loop in insertion
order. -/
def to_opengl_data3d_dedup (raw : RawData3D) : Option OpenGLData3D :=
  match dedupCore raw with
  | none => none
  | some r => some (fillEnts r.2 r.1.length r.1)

/-- The `Coord3` payload of a record, if any (for stating what the
aggregator keeps). -/
def recPos3 : LineResult → Option (ℚ × ℚ × ℚ)
  | LineResult.VertDataLine (VertexData.Coord3 x y z) => some (x, y, z)
  | _ => none

/-- The `TextureCoord2` payload of a record, if any. -/
def recTex2 : LineResult → Option (ℚ × ℚ)
  | LineResult.VertDataLine (VertexData.TextureCoord2 u v) => some (u, v)
  | _ => none

/-- The `Normal` payload of a record, if any. -/
def recNorm3 : LineResult → Option (ℚ × ℚ × ℚ)
  | LineResult.VertDataLine (VertexData.Normal x y z) => some (x, y, z)
  | _ => none

/-- The value scaled by `10^7`, written as a fraction over the original
denominator (`scaled7_eq` shows it equals `q * 10 ^ 7`). -/
def scaled7 (q : ℚ) : ℚ := mkRat (q.num * 10 ^ 7) q.den

/-- Two values agree in sign, whole part and first seven fractional decimal
digits, i.e. they differ only past the 7th fractional decimal digit:
equivalently their truncations toward zero after scaling by `10^7` agree. -/
def agree7 (x y : ℚ) : Prop := ratTrunc (scaled7 x) = ratTrunc (scaled7 y)

/-- Componentwise `agree7` on the eight coordinates of a resolved corner. -/
def pvAgree7 (a b : ParsedVertex) : Prop :=
  agree7 a.pos.1 b.pos.1 ∧ agree7 a.pos.2.1 b.pos.2.1 ∧ agree7 a.pos.2.2 b.pos.2.2 ∧
  agree7 a.tex.1 b.tex.1 ∧ agree7 a.tex.2 b.tex.2 ∧
  agree7 a.norm.1 b.norm.1 ∧ agree7 a.norm.2.1 b.norm.2.1 ∧ agree7 a.norm.2.2 b.norm.2.2

instance agree7.dec (x y : ℚ) : Decidable (agree7 x y) := by
  unfold agree7
  infer_instance

instance pvAgree7.dec (a b : ParsedVertex) : Decidable (pvAgree7 a b) := by
  unfold pvAgree7
  infer_instance

/-- A face line whose corners are bare indices. -/
def lineC2a : String := "f 1 2 3"

/-- A face line whose corners are index/texcoord pairs. -/
def lineC2b : String := "f 1/2 3/4 5/6"

/-- The face line of the source unit test `test_face1`. -/
def lineC2c : String := "f 1/2/3 3//2 2/1/"

/-- A face line whose corners use the `a//` form. -/
def lineC2d : String := "f 1// 2// 3//"

/-- A five-corner (pentagon) face line. -/
def lineC5 : String := "f 1/1/1 2/2/2 3/3/3 4/4/4 5/5/5"

/-- The same face line truncated to four corners. -/
def lineC5q : String := "f 1/1/1 2/2/2 3/3/3 4/4/4"

/-- A position line ending in a comment. -/
def lineC10 : String := "v 1 2 3 # note"

/-- A comment-free position line. -/
def lineC10b : String := "v 1.0 2.0 3.0"

/-- Raw mesh with two accumulated positions and one corner whose position
index is 1 (which in OBJ denotes the first position). -/
def rawC1 : RawData3D :=
  ⟨[(1, 2, 3), (4, 5, 6)], [(0, 0)], [(0, 0, 1)], [⟨1, some 0, some 0⟩]⟩

/-- Raw mesh with a single accumulated position and one corner whose
position index is 1. -/
def rawC1b : RawData3D :=
  ⟨[(1, 2, 3)], [(0, 0)], [(0, 0, 1)], [⟨1, some 0, some 0⟩]⟩

/-- Raw mesh whose only corner omits its texcoord index but is otherwise
fully in range. -/
def rawC3 : RawData3D := ⟨[(0, 0, 0)], [(0, 0)], [(0, 0, 1)], [⟨0, none, some 0⟩]⟩

/-- Raw mesh whose two corners resolve to positions 0.25 and 0.250000001,
which differ only at the 9th fractional decimal digit. -/
def rawC6 : RawData3D :=
  ⟨[(mkRat 1 4, 0, 0), (mkRat 250000001 1000000000, 0, 0)], [(0, 0)], [(0, 0, 1)],
   [⟨0, some 0, some 0⟩, ⟨1, some 0, some 0⟩]⟩

/-- Resolved value of the first corner of `rawC6`. -/
def pvC6a : ParsedVertex := ⟨(mkRat 1 4, 0, 0), (0, 0), (0, 0, 1)⟩

/-- Resolved value of the second corner of `rawC6`. -/
def pvC6b : ParsedVertex := ⟨(mkRat 250000001 1000000000, 0, 0), (0, 0), (0, 0, 1)⟩

/-- The single deduplication entry produced by `rawC6`. -/
def entC6 : Entry := ⟨⟨2500000, 0, 0, 0, 0, 0, 0, 10000000⟩, 0, pvC6a⟩

/-- Raw mesh with two corners resolving to distinct vertices. -/
def rawC9 : RawData3D :=
  ⟨[(1, 0, 0), (2, 0, 0)], [(0, 0)], [(0, 0, 1)],
   [⟨0, some 0, some 0⟩, ⟨1, some 0, some 0⟩]⟩

/-- First deduplication entry produced by `rawC9`. -/
def entC9a : Entry :=
  ⟨⟨10000000, 0, 0, 0, 0, 0, 0, 10000000⟩, 0, ⟨(1, 0, 0), (0, 0), (0, 0, 1)⟩⟩

/-- Second deduplication entry produced by `rawC9`. -/
def entC9b : Entry :=
  ⟨⟨20000000, 0, 0, 0, 0, 0, 0, 10000000⟩, 1, ⟨(2, 0, 0), (0, 0), (0, 0, 1)⟩⟩

/-- Pushes a trailing carriage return into the remainder of a parse
result. -/
def crmap {α : Type} (o : Option (List Char × α)) : Option (List Char × α) :=
  match o with
  | some r => some (r.1 ++ [crChar], r.2)
  | none => none

/-- Same as `crmap` for a bare remainder (the `tagRun` worker). -/
def crmapL (o : Option (List Char)) : Option (List Char) :=
  match o with
  | some r => some (r ++ [crChar])
  | none => none

/-- A parser is stable under appending a trailing carriage return: the CR is
matched by none of the grammar's token classes, so it is left in the
remainder unconsumed. -/
def CRS {α : Type} (p : LP α) : Prop :=
  ∀ s : List Char, p (s ++ [crChar]) = crmap (p s)

/-- A parser only consumes a prefix: the remainder is a suffix of the
input. -/
def Sfx {α : Type} (p : LP α) : Prop :=
  ∀ s r, p s = some r → r.1 <:+ s

/-- If one element of the list fails, the whole loop fails. -/
theorem mapMO_eq_none_of_mem {α β : Type} {f : α → Option β} {l : List α} {a : α}
    (ha : a ∈ l) (hf : f a = none) : mapMO f l = none := by
  induction l with
  | nil => cases ha
  | cons x t ih =>
    rcases List.mem_cons.1 ha with h | h
    · subst h; simp [mapMO, hf]
    · cases hfx : f x with
      | none => simp [mapMO, hfx]
      | some b => simp [mapMO, hfx, ih h]

/-- A corner missing its texcoord or normal index makes the shared
resolution body panic at one of the two `unwrap()`s. -/
theorem resolveCorner_none_of_missing (raw : RawData3D) (v : VertexIndeces)
    (h : v.texcoord_rindex = none ∨ v.normal_rindex = none) :
    resolveCorner raw v = none := by
  rcases h with h | h
  · simp [resolveCorner, h]
  · cases ht : v.texcoord_rindex with
    | none => simp [resolveCorner, ht]
    | some t => simp [resolveCorner, ht, h]

/-- The aggregator fold appends exactly the kept records to each array. -/
theorem agg_aux (l : List LineResult) : ∀ r : RawData3D,
    (l.foldl aggStep r).vertex_pos = r.vertex_pos ++ l.filterMap recPos3 ∧
    (l.foldl aggStep r).vertex_tex = r.vertex_tex ++ l.filterMap recTex2 ∧
    (l.foldl aggStep r).vertex_norm = r.vertex_norm ++ l.filterMap recNorm3 := by
  induction l with
  | nil => intro r; simp
  | cons x t ih =>
    intro r
    obtain ⟨h1, h2, h3⟩ := ih (aggStep r x)
    refine ⟨?_, ?_, ?_⟩ <;> simp only [List.foldl_cons, h1, h2, h3] <;>
      cases x with
      | VertDataLine v =>
        cases v <;> simp [aggStep, recPos3, recTex2, recNorm3]
      | FaceLine f =>
        cases f <;> simp [aggStep, recPos3, recTex2, recNorm3]
      | NoData => simp [aggStep, recPos3, recTex2, recNorm3]
      | Error => simp [aggStep, recPos3, recTex2, recNorm3]

/-- C1: the claim says a positive corner index `k` resolves to absolute
offset `k - 1`; the code resolves it to offset `k` in both paths.  With two
accumulated positions, index 1 fetches the second position `(4,5,6)` (the
claim predicts the first, `(1,2,3)`), in the simple and the dedup path
alike; with one accumulated position, index 1 (the first position in OBJ)
indexes out of bounds and the pass panics. -/
theorem c1_positive_index_resolution_eval :
    resolveIndex 2 1 = 1 ∧
    to_opengl_data3d_simple rawC1 =
      some ⟨[(4, 5, 6)], [(0, 0)], [(0, 0, 1)], [0]⟩ ∧
    (to_opengl_data3d_dedup rawC1).map OpenGLData3D.vertex_pos = some [(4, 5, 6)] ∧
    to_opengl_data3d_simple rawC1b = none := by
  refine ⟨by decide, by decide, by decide, by decide⟩

/-- C2 counterexample: face lines whose corner fields are bare indices or
single-slash pairs do not parse; `parse_file` turns them into `Error`
records, contradicting the claim that the `1` and `1/2` forms are
accepted. -/
theorem c2_bare_and_single_slash_corners_error :
    parse_file lineC2a = [LineResult.Error] ∧
    parse_file lineC2b = [LineResult.Error] := by
  refine ⟨by decide, by decide⟩

/-- C2 amended: a corner field must contain both slashes.  The forms
`a/b/c`, `a//c`, `a/b/` and `a//` parse to a `Face`, while bare-index and
single-slash corner fields make the face line fail to parse. -/
theorem c2_corner_forms_amended :
    parse_line lineC2c.toList =
      some ([], LineResult.FaceLine (Face.Face3 ⟨1, some 2, some 3⟩ ⟨3, none, some 2⟩ ⟨2, some 1, none⟩)) ∧
    parse_line lineC2d.toList =
      some ([], LineResult.FaceLine (Face.Face3 ⟨1, none, none⟩ ⟨2, none, none⟩ ⟨3, none, none⟩)) ∧
    parse_line lineC2a.toList = none ∧
    parse_line lineC2b.toList = none := by
  refine ⟨by decide, by decide, by decide, by decide⟩

/-- C3 counterexample: the non-deduplicating path also unwraps the optional
texcoord index, so it fails (panics) on a corner that omits it, contrary to
the claim that it imposes no such precondition. -/
theorem c3_simple_path_missing_texcoord_fails :
    to_opengl_data3d_simple rawC3 = none := by decide

/-- C3 amended: both resolution paths require every corner to carry all
three indices; a corner omitting its texcoord or normal index makes the
non-deduplicating pass fail exactly like the deduplicating one. -/
theorem c3_both_paths_require_all_indices (raw : RawData3D) (v : VertexIndeces)
    (hv : v ∈ raw.vert_ind) (hmiss : v.texcoord_rindex = none ∨ v.normal_rindex = none) :
    to_opengl_data3d_simple raw = none ∧ to_opengl_data3d_dedup raw = none := by
  have h := mapMO_eq_none_of_mem hv (resolveCorner_none_of_missing raw v hmiss)
  exact ⟨by simp [to_opengl_data3d_simple, h], by simp [to_opengl_data3d_dedup, dedupCore, h]⟩

/-- C3 witness: the amended statement applied to a concrete mesh whose only
corner omits its texcoord index. -/
theorem c3_both_paths_require_all_indices_witness :
    to_opengl_data3d_simple rawC3 = none ∧ to_opengl_data3d_dedup rawC3 = none :=
  c3_both_paths_require_all_indices rawC3 ⟨0, none, some 0⟩ (by decide) (Or.inl rfl)

/-- C4 counterexample: a `Coord2` record is not appended to positions, and
`TextureCoord1`/`TextureCoord3` records are not appended to texcoords —
they all fall into the aggregator's catch-all arm and are dropped. -/
theorem c4_coord2_texcoord13_dropped :
    (to_raw_data3d [LineResult.VertDataLine (VertexData.Coord2 1 2)]).vertex_pos = [] ∧
    (to_raw_data3d [LineResult.VertDataLine (VertexData.TextureCoord1 1)]).vertex_tex = [] ∧
    (to_raw_data3d [LineResult.VertDataLine (VertexData.TextureCoord3 1 2 3)]).vertex_tex = [] := by
  refine ⟨by decide, by decide, by decide⟩

/-- C4 amended: the aggregator keeps exactly the `Coord3` records in
positions, the `TextureCoord2` records in texcoords and the `Normal`
records in normals; `Coord2`, `TextureCoord1` and `TextureCoord3` records
are silently dropped. -/
theorem c4_aggregator_amended (l : List LineResult) :
    (to_raw_data3d l).vertex_pos = l.filterMap recPos3 ∧
    (to_raw_data3d l).vertex_tex = l.filterMap recTex2 ∧
    (to_raw_data3d l).vertex_norm = l.filterMap recNorm3 := by
  have h := agg_aux l emptyRaw
  simpa [to_raw_data3d, emptyRaw] using h

/-- C5: the claim (and the source comment `Intentionally ignore data.9`)
says a face line with five or more corners still yields a `Face` from the
leading corners; in fact both face alternatives require `end_line` right
after their last corner, so a pentagon line fails every alternative and
becomes an `Error` record, while the same line truncated to four corners
parses. -/
theorem c5_ngon_five_corners_error_eval :
    parse_line lineC5.toList = none ∧
    parse_file lineC5 = [LineResult.Error] ∧
    parse_line lineC5q.toList =
      some ([], LineResult.FaceLine (Face.Face4 ⟨1, some 1, some 1⟩ ⟨2, some 2, some 2⟩
        ⟨3, some 3, some 3⟩ ⟨4, some 4, some 4⟩)) := by
  refine ⟨by decide, by decide, by decide⟩

/-- C7: a negative corner index `k` resolves to absolute offset
`array_length + k` of the corresponding accumulated array, in the shared
resolution expression of both passes. -/
theorem c7_negative_index_resolution (len : ℕ) (k : ℤ) (h : k < 0) :
    resolveIndex len k = (len : ℤ) + k := by
  simp [resolveIndex, h]

/-- C7 witness: with 5 accumulated positions, index -1 resolves to 4 and
index -5 resolves to 0. -/
theorem c7_negative_index_resolution_witness :
    resolveIndex 5 (-1) = 4 ∧ resolveIndex 5 (-5) = 0 :=
  ⟨(c7_negative_index_resolution 5 (-1) (by decide)).trans (by decide),
   (c7_negative_index_resolution 5 (-5) (by decide)).trans (by decide)⟩

/-- C8: aggregating a `Face4` record appends exactly the six corners
`v1, v2, v3, v3, v4, v1`, in that order — a fan triangulation into two
triangles sharing the `v1`–`v3` diagonal. -/
theorem c8_quad_fan_triangulation (pre : List LineResult) (v1 v2 v3 v4 : VertexIndeces) :
    (to_raw_data3d (pre ++ [LineResult.FaceLine (Face.Face4 v1 v2 v3 v4)])).vert_ind
      = (to_raw_data3d pre).vert_ind ++ [v1, v2, v3, v3, v4, v1] := by
  simp [to_raw_data3d, List.foldl_append, aggStep]

/-- On a nonnegative argument, truncation toward zero is the floor. -/
theorem ratTrunc_of_nonneg {q : ℚ} (h : 0 ≤ q) : ratTrunc q = ⌊q⌋ := if_pos h

/-- On a nonpositive argument, truncation toward zero is minus the floor of
the negation. -/
theorem ratTrunc_of_nonpos {q : ℚ} (h : q ≤ 0) : ratTrunc q = -⌊-q⌋ := by
  by_cases h0 : 0 ≤ q
  · have hq : q = 0 := le_antisymm h h0
    subst hq
    simp [ratTrunc]
  · simp [ratTrunc, h0]

/-- Splitting a scaled floor into whole and fractional contributions. -/
theorem trunc_split_nonneg (q : ℚ) :
    ⌊q⌋ * 10 ^ 7 + ⌊(q - (⌊q⌋ : ℚ)) * 10 ^ 7⌋ = ⌊q * 10 ^ 7⌋ := by
  have h : q * 10 ^ 7 = (q - (⌊q⌋ : ℚ)) * 10 ^ 7 + ((⌊q⌋ * 10 ^ 7 : ℤ) : ℚ) := by
    push_cast
    ring
  rw [h, Int.floor_add_int]
  ring

/-- The whole/fractional packing computed by `F32Wrapper::key` equals the
truncation toward zero of the value scaled by `10^7`. -/
theorem ratTrunc_split (q : ℚ) :
    ratTrunc q * 10 ^ 7 + ratTrunc ((q - (ratTrunc q : ℚ)) * 10 ^ 7) = ratTrunc (q * 10 ^ 7) := by
  by_cases h : 0 ≤ q
  · rw [ratTrunc_of_nonneg h]
    rw [ratTrunc_of_nonneg (mul_nonneg (sub_nonneg.2 (Int.floor_le q)) (by norm_num))]
    rw [ratTrunc_of_nonneg (mul_nonneg h (by norm_num))]
    exact trunc_split_nonneg q
  · push_neg at h
    have hq : q ≤ 0 := le_of_lt h
    have hw : ratTrunc q = -⌊-q⌋ := ratTrunc_of_nonpos hq
    have harg : (q - (ratTrunc q : ℚ)) * 10 ^ 7 ≤ 0 := by
      apply mul_nonpos_iff.mpr
      refine Or.inr ⟨?_, by norm_num⟩
      rw [hw]
      push_cast
      have := Int.floor_le (-q)
      linarith
    have hq7 : q * 10 ^ 7 ≤ 0 := mul_nonpos_iff.mpr (Or.inr ⟨hq, by norm_num⟩)
    rw [ratTrunc_of_nonpos harg, ratTrunc_of_nonpos hq7, hw]
    have e1 : -((q - ((-⌊-q⌋ : ℤ) : ℚ)) * 10 ^ 7) = (-q - (⌊-q⌋ : ℚ)) * 10 ^ 7 := by
      push_cast
      ring
    have e2 : -(q * 10 ^ 7) = -q * 10 ^ 7 := by ring
    rw [e1, e2]
    have := trunc_split_nonneg (-q)
    linarith

/-- The scaled fraction equals the product `q * 10 ^ 7`. -/
theorem scaled7_eq (q : ℚ) : scaled7 q = q * 10 ^ 7 := by
  unfold scaled7
  rw [Rat.mkRat_eq_div]
  have hden : ((q.den : ℚ)) ≠ 0 := Nat.cast_ne_zero.mpr q.den_nz
  have h1 : (q.num : ℚ) = q * (q.den : ℚ) := (div_eq_iff hden).mp (Rat.num_div_den q)
  rw [div_eq_iff hden]
  push_cast
  rw [h1]
  ring

/-- The fractional term of the key, written as a fraction, equals the exact
product `(q - whole) * 10 ^ 7`. -/
theorem key_frac_eq (q : ℚ) (w : ℤ) :
    (mkRat ((q.num - w * q.den) * 10 ^ 7) q.den : ℚ) = (q - (w : ℚ)) * 10 ^ 7 := by
  rw [Rat.mkRat_eq_div]
  have hden : ((q.den : ℚ)) ≠ 0 := Nat.cast_ne_zero.mpr q.den_nz
  have h1 : (q.num : ℚ) = q * (q.den : ℚ) := (div_eq_iff hden).mp (Rat.num_div_den q)
  rw [div_eq_iff hden]
  push_cast
  rw [h1]
  ring

/-- `F32Wrapper::key` is the truncation of the scaled value, wrapped to
`u64`. -/
theorem F32Wrapper.key_eq (q : ℚ) :
    F32Wrapper.key q = ratTrunc (scaled7 q) % 2 ^ 64 := by
  unfold F32Wrapper.key
  rw [key_frac_eq q (ratTrunc q), scaled7_eq, ratTrunc_split q]

/-- Values agreeing to seven fractional decimal digits get the same key. -/
theorem key_eq_of_agree7 {x y : ℚ} (h : agree7 x y) :
    F32Wrapper.key x = F32Wrapper.key y := by
  have h2 : ratTrunc (scaled7 x) = ratTrunc (scaled7 y) := h
  rw [F32Wrapper.key_eq, F32Wrapper.key_eq, h2]

/-- Resolved corners agreeing componentwise to seven fractional decimal
digits get the same deduplication key. -/
theorem parsedVertexKey_eq_of_agree7 {a b : ParsedVertex} (h : pvAgree7 a b) :
    parsedVertexKey a = parsedVertexKey b := by
  obtain ⟨h1, h2, h3, h4, h5, h6, h7, h8⟩ := h
  unfold parsedVertexKey
  rw [key_eq_of_agree7 h1, key_eq_of_agree7 h2, key_eq_of_agree7 h3, key_eq_of_agree7 h4,
      key_eq_of_agree7 h5, key_eq_of_agree7 h6, key_eq_of_agree7 h7, key_eq_of_agree7 h8]

/-- Association-list lookup over an append searches the front first. -/
theorem lookupEnt_append (k : PVKey) (a b : List Entry) :
    lookupEnt k (a ++ b) =
      match lookupEnt k a with
      | some i => some i
      | none => lookupEnt k b := by
  induction a with
  | nil => simp [lookupEnt]
  | cons e t ih =>
    by_cases h : e.key = k
    · simp [lookupEnt, h]
    · simp [lookupEnt, h, ih]

/-- The deduplication loop only appends to the entry list. -/
theorem dedupFold_ents_ext (pvs : List ParsedVertex) :
    ∀ st : DState, ∃ ext, (pvs.foldl dedupStep st).ents = st.ents ++ ext := by
  induction pvs with
  | nil => intro st; exact ⟨[], by simp⟩
  | cons pv rest ih =>
    intro st
    obtain ⟨ext, he⟩ := ih (dedupStep st pv)
    rw [List.foldl_cons]
    cases hl : lookupEnt (parsedVertexKey pv) st.ents with
    | some i =>
      refine ⟨ext, ?_⟩
      rw [he]
      simp [dedupStep, hl]
    | none =>
      refine ⟨⟨parsedVertexKey pv, st.curr_ind, pv⟩ :: ext, ?_⟩
      rw [he]
      simp [dedupStep, hl]

/-- The deduplication loop only appends to the index list. -/
theorem dedupFold_idx_ext (pvs : List ParsedVertex) :
    ∀ st : DState, ∃ ext, (pvs.foldl dedupStep st).indecies = st.indecies ++ ext := by
  induction pvs with
  | nil => intro st; exact ⟨[], by simp⟩
  | cons pv rest ih =>
    intro st
    obtain ⟨ext, he⟩ := ih (dedupStep st pv)
    rw [List.foldl_cons]
    cases hl : lookupEnt (parsedVertexKey pv) st.ents with
    | some i =>
      refine ⟨i :: ext, ?_⟩
      rw [he]
      simp [dedupStep, hl]
    | none =>
      refine ⟨st.curr_ind :: ext, ?_⟩
      rw [he]
      simp [dedupStep, hl]

/-- A key present in the map keeps its id through the rest of the loop. -/
theorem dedupFold_lookup_mono (pvs : List ParsedVertex) (st : DState) (k : PVKey) (i : ℕ)
    (h : lookupEnt k st.ents = some i) :
    lookupEnt k (pvs.foldl dedupStep st).ents = some i := by
  obtain ⟨ext, he⟩ := dedupFold_ents_ext pvs st
  rw [he, lookupEnt_append, h]

/-- Each iteration pushes exactly one index, and that index is the id the
corner's key has in the map right after the iteration. -/
theorem dedupStep_indecies (st : DState) (pv : ParsedVertex) :
    ∃ i, (dedupStep st pv).indecies = st.indecies ++ [i] ∧
      lookupEnt (parsedVertexKey pv) (dedupStep st pv).ents = some i := by
  cases hl : lookupEnt (parsedVertexKey pv) st.ents with
  | some i =>
    exact ⟨i, by simp [dedupStep, hl], by simp [dedupStep, hl]⟩
  | none =>
    refine ⟨st.curr_ind, by simp [dedupStep, hl], ?_⟩
    simp [dedupStep, hl, lookupEnt_append, lookupEnt]

/-- The index pushed for corner `t` is the id its key holds in the final
map. -/
theorem dedupFold_idx_lookup (pvs : List ParsedVertex) :
    ∀ (st : DState) (t : ℕ) (pv : ParsedVertex), pvs[t]? = some pv →
      (pvs.foldl dedupStep st).indecies[st.indecies.length + t]? =
        lookupEnt (parsedVertexKey pv) (pvs.foldl dedupStep st).ents := by
  induction pvs with
  | nil => intro st t pv h; simp at h
  | cons pv0 rest ih =>
    intro st t pv h
    rw [List.foldl_cons]
    obtain ⟨i, hidx, hlook⟩ := dedupStep_indecies st pv0
    cases t with
    | zero =>
      have hpv : pv0 = pv := by simpa using h
      subst hpv
      obtain ⟨ext, hext⟩ := dedupFold_idx_ext rest (dedupStep st pv0)
      rw [hext, hidx, Nat.add_zero]
      rw [List.getElem?_append_left (by simp)]
      rw [List.getElem?_concat_length]
      exact (dedupFold_lookup_mono rest _ _ _ hlook).symm
    | succ t =>
      have h2 : rest[t]? = some pv := by simpa using h
      have h3 := ih (dedupStep st pv0) t pv h2
      rw [hidx] at h3
      have e : st.indecies.length + (t + 1) = (st.indecies ++ [i]).length + t := by
        simp only [List.length_append, List.length_cons, List.length_nil]
        omega
      rw [e]
      exact h3

/-- `dedupFold_idx_lookup` from the empty initial state. -/
theorem dedupRun_idx_lookup (pvs : List ParsedVertex) (t : ℕ) (pv : ParsedVertex)
    (h : pvs[t]? = some pv) :
    (dedupRun pvs).indecies[t]? = lookupEnt (parsedVertexKey pv) (dedupRun pvs).ents := by
  have h2 := dedupFold_idx_lookup pvs ⟨[], 0, []⟩ t pv h
  simpa [dedupRun] using h2

/-- The ids recorded by the deduplication loop are bounded by the counter
and pairwise distinct. -/
theorem dedupFold_ids (pvs : List ParsedVertex) :
    ∀ st : DState, (∀ e ∈ st.ents, e.id < st.curr_ind) →
      ((st.ents.map Entry.id).Nodup) →
      (∀ e ∈ (pvs.foldl dedupStep st).ents, e.id < (pvs.foldl dedupStep st).curr_ind) ∧
        (((pvs.foldl dedupStep st).ents.map Entry.id).Nodup) := by
  induction pvs with
  | nil => intro st h1 h2; exact ⟨h1, h2⟩
  | cons pv rest ih =>
    intro st h1 h2
    rw [List.foldl_cons]
    apply ih
    · cases hl : lookupEnt (parsedVertexKey pv) st.ents with
      | some i => simpa [dedupStep, hl] using h1
      | none =>
        intro e he
        simp only [dedupStep, hl, List.mem_append, List.mem_singleton] at he
        simp only [dedupStep, hl]
        rcases he with he | he
        · exact Nat.lt_succ_of_lt (h1 e he)
        · subst he
          exact Nat.lt_succ_self _
    · cases hl : lookupEnt (parsedVertexKey pv) st.ents with
      | some i => simpa [dedupStep, hl] using h2
      | none =>
        simp only [dedupStep, hl, List.map_append, List.map_cons, List.map_nil]
        rw [List.nodup_append]
        refine ⟨h2, List.nodup_singleton _, ?_⟩
        intro a ha hb
        simp only [List.mem_singleton] at hb
        subst hb
        obtain ⟨e, he, hei⟩ := List.mem_map.1 ha
        exact absurd (hei ▸ h1 e he) (lt_irrefl _)

/-- The ids of the final map entries are pairwise distinct. -/
theorem dedupRun_ids_nodup (pvs : List ParsedVertex) :
    ((dedupRun pvs).ents.map Entry.id).Nodup :=
  (dedupFold_ids pvs ⟨[], 0, []⟩ (by simp) (by simp)).2

/-- Fill-loop iterations for entries with distinct ids commute. -/
theorem writeEnt_comm (o : OpenGLData3D) (x y : Entry) (h : x.id ≠ y.id) :
    writeEnt (writeEnt o x) y = writeEnt (writeEnt o y) x := by
  cases o with
  | mk vp vt vn ind =>
    simp only [writeEnt]
    rw [List.set_comm _ _ _ h, List.set_comm _ _ _ h, List.set_comm _ _ _ h]

/-- C9: the deduplicator is a deterministic function of the raw mesh: its
output does not depend on the iteration order of the hash map in the fill
loop (the only behaviour of the map that is not a function of the input),
so re-running it on the same `RawData3D` yields the identical
`OpenGLData3D` — same id assignment, index array and attribute arrays. -/
theorem c9_dedup_fill_order_invariant (raw : RawData3D) (ents : List Entry) (idx : List ℕ)
    (order : List Entry) (h : dedupCore raw = some (ents, idx))
    (hp : List.Perm order ents) :
    dedupWithOrder raw order = to_opengl_data3d_dedup raw := by
  have hnd : (ents.map Entry.id).Nodup := by
    unfold dedupCore at h
    cases hm : mapMO (resolveCorner raw) raw.vert_ind with
    | none =>
      rw [hm] at h
      exact absurd h (by simp)
    | some pvs =>
      rw [hm] at h
      simp only [Option.some.injEq, Prod.mk.injEq] at h
      rw [← h.1]
      exact dedupRun_ids_nodup pvs
  unfold dedupWithOrder to_opengl_data3d_dedup
  rw [h]
  show some (fillEnts idx ents.length order) = some (fillEnts idx ents.length ents)
  congr 1
  unfold fillEnts
  apply List.Perm.foldl_eq' hp
  intro x hx y hy z
  by_cases hxy : x = y
  · subst hxy
    rfl
  · have hid : x.id ≠ y.id := fun hid =>
      hxy (List.inj_on_of_nodup_map hnd (hp.subset hx) (hp.subset hy) hid)
    exact writeEnt_comm z x y hid

/-- C9 witness: on a concrete two-vertex mesh, filling in the reversed map
order yields the same output as insertion order. -/
theorem c9_dedup_fill_order_invariant_witness :
    dedupWithOrder rawC9 [entC9b, entC9a] = to_opengl_data3d_dedup rawC9 :=
  c9_dedup_fill_order_invariant rawC9 [entC9a, entC9b] [0, 1] [entC9b, entC9a]
    (by decide) (List.Perm.swap entC9a entC9b [])

/-- C6: two corners whose resolved position, texcoord and normal values
differ only past the 7th fractional decimal digit in each coordinate are
assigned the same dense vertex id by the deduplicator. -/
theorem c6_agree7_corners_same_id (raw : RawData3D) (ents : List Entry) (idx : List ℕ)
    (pvs : List ParsedVertex) (i j : ℕ) (pvi pvj : ParsedVertex)
    (h : dedupCore raw = some (ents, idx))
    (hm : mapMO (resolveCorner raw) raw.vert_ind = some pvs)
    (hi : pvs[i]? = some pvi) (hj : pvs[j]? = some pvj)
    (ha : pvAgree7 pvi pvj) :
    idx[i]? = idx[j]? := by
  unfold dedupCore at h
  rw [hm] at h
  simp only [Option.some.injEq, Prod.mk.injEq] at h
  obtain ⟨he, hidx⟩ := h
  subst hidx
  rw [dedupRun_idx_lookup pvs i pvi hi, dedupRun_idx_lookup pvs j pvj hj,
      parsedVertexKey_eq_of_agree7 ha]

/-- C6 witness: positions 0.25 and 0.250000001 differ only at the 9th
fractional decimal digit, and the two corners resolving to them receive the
same id 0. -/
theorem c6_agree7_corners_same_id_witness :
    ([0, 0] : List ℕ)[0]? = ([0, 0] : List ℕ)[1]? :=
  c6_agree7_corners_same_id rawC6 [entC6] [0, 0] [pvC6a, pvC6b] 0 1 pvC6a pvC6b
    (by decide) (by decide) (by decide) (by decide) (by decide)

/-- Appending a non-matching character does not change `takeWhile`. -/
theorem takeWhile_append_single (f : Char → Bool) (c : Char) (hc : f c = false) :
    ∀ s : List Char, (s ++ [c]).takeWhile f = s.takeWhile f := by
  intro s
  induction s with
  | nil => simp [List.takeWhile_cons, hc]
  | cons a t ih =>
    cases hfa : f a with
    | true => simp [List.takeWhile_cons, hfa, ih]
    | false => simp [List.takeWhile_cons, hfa]

/-- Appending a non-matching character commutes with `dropWhile`. -/
theorem dropWhile_append_single (f : Char → Bool) (c : Char) (hc : f c = false) :
    ∀ s : List Char, (s ++ [c]).dropWhile f = s.dropWhile f ++ [c] := by
  intro s
  induction s with
  | nil => simp [List.dropWhile_cons, hc]
  | cons a t ih =>
    cases hfa : f a with
    | true => simp [List.dropWhile_cons, hfa, ih]
    | false => simp [List.dropWhile_cons, hfa]

/-- The head of a `dropWhile` result does not satisfy the predicate. -/
theorem dropWhile_head_false (f : Char → Bool) :
    ∀ (s : List Char) (c : Char) (t : List Char), s.dropWhile f = c :: t → f c = false := by
  intro s
  induction s with
  | nil => intro c t h; simp at h
  | cons a u ih =>
    intro c t h
    cases hfa : f a with
    | true =>
      rw [List.dropWhile_cons, if_pos (by simp [hfa])] at h
      exact ih c t h
    | false =>
      rw [List.dropWhile_cons, if_neg (by simp [hfa])] at h
      cases h
      exact hfa

/-- Sequencing preserves CR-stability. -/
theorem crs_pseq {α β : Type} {p : LP α} {q : LP β} (hp : CRS p) (hq : CRS q) :
    CRS (pseq p q) := by
  intro s
  simp only [pseq, hp s]
  cases hps : p s with
  | none => rfl
  | some r =>
    simp only [crmap, hq r.1]
    cases q r.1 with
    | none => rfl
    | some r2 => rfl

/-- Mapping preserves CR-stability. -/
theorem crs_pmap {α β : Type} {p : LP α} (hp : CRS p) (f : α → β) : CRS (pmap p f) := by
  intro s
  simp only [pmap, hp s]
  cases p s with
  | none => rfl
  | some r => rfl

/-- `opt` preserves CR-stability. -/
theorem crs_popt {α : Type} {p : LP α} (hp : CRS p) : CRS (popt p) := by
  intro s
  simp only [popt, hp s]
  cases p s with
  | none => rfl
  | some r => rfl

/-- `char(c)` is CR-stable when `c` is not the CR character. -/
theorem crs_charP (c : Char) (hc : c ≠ crChar) : CRS (charP c) := by
  intro s
  cases s with
  | nil =>
    simp only [charP, List.nil_append, crmap]
    rw [if_neg (fun h => hc h.symm)]
  | cons a t =>
    by_cases h : a = c
    · simp [charP, h, crmap]
    · simp [charP, h, crmap]

/-- `tagRun` is CR-stable when the tag contains no CR. -/
theorem tagRun_append_cr :
    ∀ (t s : List Char), crChar ∉ t →
      tagRun t (s ++ [crChar]) = crmapL (tagRun t s) := by
  intro t
  induction t with
  | nil => intro s _; rfl
  | cons c ct ih =>
    intro s ht
    cases s with
    | nil =>
      simp only [tagRun, List.nil_append, crmapL]
      rw [if_neg (fun h => ht (by subst h; exact List.mem_cons_self _ _))]
    | cons d dt =>
      by_cases h : c = d
      · simp only [List.cons_append, tagRun, if_pos h]
        exact ih dt (fun hm => ht (List.mem_cons_of_mem c hm))
      · simp only [List.cons_append, tagRun, if_neg h, crmapL]

/-- `tag(t)` is CR-stable when the tag contains no CR. -/
theorem crs_tagP (t : List Char) (ht : crChar ∉ t) : CRS (tagP t) := by
  intro s
  simp only [tagP, tagRun_append_cr t s ht]
  cases tagRun t s with
  | none => rfl
  | some r => rfl

/-- `space0` is CR-stable. -/
theorem crs_pspace0 : CRS pspace0 := by
  intro s
  simp only [pspace0, dropWhile_append_single isSpaceTab crChar (by decide) s]
  rfl

/-- `space1` is CR-stable. -/
theorem crs_pspace1 : CRS pspace1 := by
  intro s
  cases s with
  | nil =>
    simp only [pspace1, List.nil_append, crmap]
    rw [if_neg (by decide)]
  | cons a t =>
    cases hfa : isSpaceTab a with
    | true =>
      simp only [List.cons_append, pspace1, if_pos hfa,
        dropWhile_append_single isSpaceTab crChar (by decide) t, crmap]
    | false =>
      simp only [List.cons_append, pspace1, hfa, crmap]
      rw [if_neg (by simp), if_neg (by simp)]

/-- The post-sign part of `consume_num` is CR-stable. -/
theorem numTail_append_cr (sgn s1 : List Char) :
    numTail sgn (s1 ++ [crChar]) = crmap (numTail sgn s1) := by
  simp only [numTail, takeWhile_append_single Char.isDigit crChar (by decide) s1,
    dropWhile_append_single Char.isDigit crChar (by decide) s1]
  cases hds : (s1.takeWhile Char.isDigit).isEmpty with
  | true => simp [hds, crmap]
  | false =>
    cases hs2 : s1.dropWhile Char.isDigit with
    | nil =>
      have hcr : ¬(crChar = Char.ofNat 46) := by decide
      simp [hds, hcr, crmap]
    | cons c t =>
      by_cases hc : c = Char.ofNat 46
      · simp only [hds, List.cons_append, if_pos hc,
          takeWhile_append_single Char.isDigit crChar (by decide) t,
          dropWhile_append_single Char.isDigit crChar (by decide) t]
        simp [crmap]
      · simp only [hds, List.cons_append, if_neg hc]
        simp [crmap]

/-- `consume_num` is CR-stable. -/
theorem crs_consume_num : CRS consume_num := by
  intro s
  cases s with
  | nil => rfl
  | cons c t =>
    by_cases h : c = Char.ofNat 43 ∨ c = Char.ofNat 45
    · simp only [List.cons_append, consume_num, if_pos h]
      exact numTail_append_cr [c] t
    · simp only [List.cons_append, consume_num, if_neg h]
      exact numTail_append_cr [] (c :: t)

/-- `parse_float` is CR-stable. -/
theorem crs_parse_float : CRS parse_float := by
  intro s
  simp only [parse_float, crs_consume_num s]
  cases consume_num s with
  | none => rfl
  | some r =>
    simp only [crmap]
    cases ratFromStr r.2 with
    | none => rfl
    | some v => rfl

/-- `parse_num` is CR-stable. -/
theorem crs_parse_num : CRS parse_num := by
  intro s
  simp only [parse_num, crs_consume_num s]
  cases consume_num s with
  | none => rfl
  | some r =>
    simp only [crmap]
    cases intFromStr r.2 with
    | none => rfl
    | some v => rfl

/-- Sequencing preserves the consume-a-prefix property. -/
theorem sfx_pseq {α β : Type} {p : LP α} {q : LP β} (hp : Sfx p) (hq : Sfx q) :
    Sfx (pseq p q) := by
  intro s r h
  simp only [pseq] at h
  cases hps : p s with
  | none => simp [hps] at h
  | some r1 =>
    simp only [hps] at h
    cases hqs : q r1.1 with
    | none => simp [hqs] at h
    | some r2 =>
      simp only [hqs] at h
      cases h
      exact (hq r1.1 r2 hqs).trans (hp s r1 hps)

/-- Mapping preserves the consume-a-prefix property. -/
theorem sfx_pmap {α β : Type} {p : LP α} (hp : Sfx p) (f : α → β) : Sfx (pmap p f) := by
  intro s r h
  simp only [pmap] at h
  cases hps : p s with
  | none => simp [hps] at h
  | some r1 =>
    simp only [hps] at h
    cases h
    exact hp s r1 hps

/-- `opt` preserves the consume-a-prefix property. -/
theorem sfx_popt {α : Type} {p : LP α} (hp : Sfx p) : Sfx (popt p) := by
  intro s r h
  simp only [popt] at h
  cases hps : p s with
  | none =>
    simp only [hps] at h
    cases h
    exact List.suffix_refl s
  | some r1 =>
    simp only [hps] at h
    cases h
    exact hp s r1 hps

/-- `char(c)` consumes a prefix. -/
theorem sfx_charP (c : Char) : Sfx (charP c) := by
  intro s r h
  cases s with
  | nil => cases h
  | cons a t =>
    simp only [charP] at h
    by_cases hac : a = c
    · rw [if_pos hac] at h
      cases h
      exact List.suffix_cons a t
    · rw [if_neg hac] at h
      cases h

/-- `tagRun` returns a suffix of the input. -/
theorem tagRun_suffix : ∀ (t s r : List Char), tagRun t s = some r → r <:+ s := by
  intro t
  induction t with
  | nil =>
    intro s r h
    cases h
    exact List.suffix_refl s
  | cons c ct ih =>
    intro s r h
    cases s with
    | nil => cases h
    | cons d dt =>
      simp only [tagRun] at h
      by_cases hcd : c = d
      · rw [if_pos hcd] at h
        exact (ih dt r h).trans (List.suffix_cons d dt)
      · rw [if_neg hcd] at h
        cases h

/-- `tag(t)` consumes a prefix. -/
theorem sfx_tagP (t : List Char) : Sfx (tagP t) := by
  intro s r h
  simp only [tagP] at h
  cases htr : tagRun t s with
  | none => simp [htr] at h
  | some r1 =>
    simp only [htr] at h
    cases h
    exact tagRun_suffix t s r1 htr

/-- `space0` consumes a prefix. -/
theorem sfx_pspace0 : Sfx pspace0 := by
  intro s r h
  cases h
  exact List.dropWhile_suffix isSpaceTab

/-- `space1` consumes a prefix. -/
theorem sfx_pspace1 : Sfx pspace1 := by
  intro s r h
  cases s with
  | nil => cases h
  | cons a t =>
    simp only [pspace1] at h
    cases hfa : isSpaceTab a with
    | true =>
      rw [if_pos (by simp [hfa])] at h
      cases h
      exact (List.dropWhile_suffix isSpaceTab).trans (List.suffix_cons a t)
    | false =>
      rw [if_neg (by simp [hfa])] at h
      cases h

/-- `numTail` returns a suffix of its (post-sign) input. -/
theorem numTail_suffix (sgn s1 : List Char) (r : List Char × List Char)
    (h : numTail sgn s1 = some r) : r.1 <:+ s1 := by
  simp only [numTail] at h
  cases hds : (s1.takeWhile Char.isDigit).isEmpty with
  | true => rw [if_pos (by simp [hds])] at h; cases h
  | false =>
    rw [if_neg (by simp [hds])] at h
    cases hs2 : s1.dropWhile Char.isDigit with
    | nil =>
      simp only [hs2] at h
      cases h
      exact List.nil_suffix
    | cons c t =>
      simp only [hs2] at h
      by_cases hc : c = Char.ofNat 46
      · rw [if_pos hc] at h
        cases h
        refine (List.dropWhile_suffix Char.isDigit).trans ?_
        have h1 : t <:+ c :: t := List.suffix_cons c t
        have h2 : (c :: t : List Char) <:+ s1 := hs2 ▸ List.dropWhile_suffix Char.isDigit
        exact h1.trans h2
      · rw [if_neg hc] at h
        cases h
        exact hs2 ▸ List.dropWhile_suffix Char.isDigit

/-- `consume_num` consumes a prefix. -/
theorem sfx_consume_num : Sfx consume_num := by
  intro s r h
  cases s with
  | nil => cases h
  | cons c t =>
    simp only [consume_num] at h
    by_cases hsgn : c = Char.ofNat 43 ∨ c = Char.ofNat 45
    · rw [if_pos hsgn] at h
      exact (numTail_suffix [c] t r h).trans (List.suffix_cons c t)
    · rw [if_neg hsgn] at h
      exact numTail_suffix [] (c :: t) r h

/-- `parse_float` consumes a prefix. -/
theorem sfx_parse_float : Sfx parse_float := by
  intro s r h
  simp only [parse_float] at h
  cases hcn : consume_num s with
  | none => simp [hcn] at h
  | some r1 =>
    simp only [hcn] at h
    cases hrs : ratFromStr r1.2 with
    | none => simp [hrs] at h
    | some v =>
      simp only [hrs] at h
      cases h
      exact sfx_consume_num s r1 hcn

/-- `parse_num` consumes a prefix. -/
theorem sfx_parse_num : Sfx parse_num := by
  intro s r h
  simp only [parse_num] at h
  cases hcn : consume_num s with
  | none => simp [hcn] at h
  | some r1 =>
    simp only [hcn] at h
    cases his : intFromStr r1.2 with
    | none => simp [his] at h
    | some v =>
      simp only [his] at h
      cases h
      exact sfx_consume_num s r1 hcn

/-- `parse_coord2` is CR-stable. -/
theorem crs_parse_coord2 : CRS parse_coord2 :=
  crs_pmap (crs_pseq crs_pspace0 (crs_pseq (crs_tagP _ (by decide))
    (crs_pseq crs_pspace1 (crs_pseq crs_parse_float
      (crs_pseq crs_pspace1 crs_parse_float))))) _

/-- `parse_coord3` is CR-stable. -/
theorem crs_parse_coord3 : CRS parse_coord3 :=
  crs_pmap (crs_pseq crs_pspace0 (crs_pseq (crs_tagP _ (by decide))
    (crs_pseq crs_pspace1 (crs_pseq crs_parse_float (crs_pseq crs_pspace1
      (crs_pseq crs_parse_float (crs_pseq crs_pspace1 crs_parse_float))))))) _

/-- `parse_normal` is CR-stable. -/
theorem crs_parse_normal : CRS parse_normal :=
  crs_pmap (crs_pseq crs_pspace0 (crs_pseq (crs_tagP _ (by decide))
    (crs_pseq crs_pspace1 (crs_pseq crs_parse_float (crs_pseq crs_pspace1
      (crs_pseq crs_parse_float (crs_pseq crs_pspace1 crs_parse_float))))))) _

/-- `parse_texcoord1` is CR-stable. -/
theorem crs_parse_texcoord1 : CRS parse_texcoord1 :=
  crs_pmap (crs_pseq crs_pspace0 (crs_pseq (crs_tagP _ (by decide))
    (crs_pseq crs_pspace1 crs_parse_float))) _

/-- `parse_texcoord2` is CR-stable. -/
theorem crs_parse_texcoord2 : CRS parse_texcoord2 :=
  crs_pmap (crs_pseq crs_pspace0 (crs_pseq (crs_tagP _ (by decide))
    (crs_pseq crs_pspace1 (crs_pseq crs_parse_float
      (crs_pseq crs_pspace1 crs_parse_float))))) _

/-- `parse_texcoord3` is CR-stable. -/
theorem crs_parse_texcoord3 : CRS parse_texcoord3 :=
  crs_pmap (crs_pseq crs_pspace0 (crs_pseq (crs_tagP _ (by decide))
    (crs_pseq crs_pspace1 (crs_pseq crs_parse_float (crs_pseq crs_pspace1
      (crs_pseq crs_parse_float (crs_pseq crs_pspace1 crs_parse_float))))))) _

/-- `parse_face_vertex` is CR-stable. -/
theorem crs_parse_face_vertex : CRS parse_face_vertex :=
  crs_pmap (crs_pseq crs_parse_num (crs_pseq (crs_charP _ (by decide))
    (crs_pseq (crs_popt crs_parse_num)
      (crs_pseq (crs_charP _ (by decide)) (crs_popt crs_parse_num))))) _

/-- `parse_face3` is CR-stable. -/
theorem crs_parse_face3 : CRS parse_face3 :=
  crs_pmap (crs_pseq crs_pspace0 (crs_pseq (crs_tagP _ (by decide))
    (crs_pseq crs_pspace1 (crs_pseq crs_parse_face_vertex (crs_pseq crs_pspace1
      (crs_pseq crs_parse_face_vertex (crs_pseq crs_pspace1 crs_parse_face_vertex))))))) _

/-- `parse_face4` is CR-stable. -/
theorem crs_parse_face4 : CRS parse_face4 :=
  crs_pmap (crs_pseq crs_pspace0 (crs_pseq (crs_tagP _ (by decide))
    (crs_pseq crs_pspace1 (crs_pseq crs_parse_face_vertex (crs_pseq crs_pspace1
      (crs_pseq crs_parse_face_vertex (crs_pseq crs_pspace1
        (crs_pseq crs_parse_face_vertex (crs_pseq crs_pspace1 crs_parse_face_vertex))))))))) _

/-- `parse_coord2` consumes a prefix. -/
theorem sfx_parse_coord2 : Sfx parse_coord2 :=
  sfx_pmap (sfx_pseq sfx_pspace0 (sfx_pseq (sfx_tagP _)
    (sfx_pseq sfx_pspace1 (sfx_pseq sfx_parse_float
      (sfx_pseq sfx_pspace1 sfx_parse_float))))) _

/-- `parse_coord3` consumes a prefix. -/
theorem sfx_parse_coord3 : Sfx parse_coord3 :=
  sfx_pmap (sfx_pseq sfx_pspace0 (sfx_pseq (sfx_tagP _)
    (sfx_pseq sfx_pspace1 (sfx_pseq sfx_parse_float (sfx_pseq sfx_pspace1
      (sfx_pseq sfx_parse_float (sfx_pseq sfx_pspace1 sfx_parse_float))))))) _

/-- `parse_normal` consumes a prefix. -/
theorem sfx_parse_normal : Sfx parse_normal :=
  sfx_pmap (sfx_pseq sfx_pspace0 (sfx_pseq (sfx_tagP _)
    (sfx_pseq sfx_pspace1 (sfx_pseq sfx_parse_float (sfx_pseq sfx_pspace1
      (sfx_pseq sfx_parse_float (sfx_pseq sfx_pspace1 sfx_parse_float))))))) _

/-- `parse_texcoord1` consumes a prefix. -/
theorem sfx_parse_texcoord1 : Sfx parse_texcoord1 :=
  sfx_pmap (sfx_pseq sfx_pspace0 (sfx_pseq (sfx_tagP _)
    (sfx_pseq sfx_pspace1 sfx_parse_float))) _

/-- `parse_texcoord2` consumes a prefix. -/
theorem sfx_parse_texcoord2 : Sfx parse_texcoord2 :=
  sfx_pmap (sfx_pseq sfx_pspace0 (sfx_pseq (sfx_tagP _)
    (sfx_pseq sfx_pspace1 (sfx_pseq sfx_parse_float
      (sfx_pseq sfx_pspace1 sfx_parse_float))))) _

/-- `parse_texcoord3` consumes a prefix. -/
theorem sfx_parse_texcoord3 : Sfx parse_texcoord3 :=
  sfx_pmap (sfx_pseq sfx_pspace0 (sfx_pseq (sfx_tagP _)
    (sfx_pseq sfx_pspace1 (sfx_pseq sfx_parse_float (sfx_pseq sfx_pspace1
      (sfx_pseq sfx_parse_float (sfx_pseq sfx_pspace1 sfx_parse_float))))))) _

/-- `parse_face_vertex` consumes a prefix. -/
theorem sfx_parse_face_vertex : Sfx parse_face_vertex :=
  sfx_pmap (sfx_pseq sfx_parse_num (sfx_pseq (sfx_charP _)
    (sfx_pseq (sfx_popt sfx_parse_num)
      (sfx_pseq (sfx_charP _) (sfx_popt sfx_parse_num))))) _

/-- `parse_face3` consumes a prefix. -/
theorem sfx_parse_face3 : Sfx parse_face3 :=
  sfx_pmap (sfx_pseq sfx_pspace0 (sfx_pseq (sfx_tagP _)
    (sfx_pseq sfx_pspace1 (sfx_pseq sfx_parse_face_vertex (sfx_pseq sfx_pspace1
      (sfx_pseq sfx_parse_face_vertex (sfx_pseq sfx_pspace1 sfx_parse_face_vertex))))))) _

/-- `parse_face4` consumes a prefix. -/
theorem sfx_parse_face4 : Sfx parse_face4 :=
  sfx_pmap (sfx_pseq sfx_pspace0 (sfx_pseq (sfx_tagP _)
    (sfx_pseq sfx_pspace1 (sfx_pseq sfx_parse_face_vertex (sfx_pseq sfx_pspace1
      (sfx_pseq sfx_parse_face_vertex (sfx_pseq sfx_pspace1
        (sfx_pseq sfx_parse_face_vertex (sfx_pseq sfx_pspace1 sfx_parse_face_vertex))))))))) _

/-- On a remainder containing no `#`, `end_line` rejects a trailing CR: the
CR is not whitespace, and without a `#` no comment can absorb it, so `eof`
fails. -/
theorem end_line_cr {rem : List Char} (hh : hashChar ∉ rem) :
    end_line (rem ++ [crChar]) = none := by
  have hdw := dropWhile_append_single isSpaceTab crChar (by decide) rem
  have hsub : rem.dropWhile isSpaceTab <:+ rem := List.dropWhile_suffix isSpaceTab
  simp only [end_line, hdw]
  cases hd : rem.dropWhile isSpaceTab with
  | nil => decide
  | cons x xs =>
    have hx : isSpaceTab x = false := dropWhile_head_false isSpaceTab rem x xs hd
    have hxh : ¬(x = hashChar) := by
      intro hxeq
      subst hxeq
      exact hh ((hd ▸ hsub).subset (List.mem_cons_self _ _))
    simp [consume_comment, List.dropWhile_cons, hx, hxh]

/-- A `body then end_line` alternative rejects a comment-free line with a
trailing CR. -/
theorem withEnd_cr {α : Type} {p : LP α} (hc : CRS p) (hs : Sfx p) (f : α → LineResult)
    {s : List Char} (hh : hashChar ∉ s) : withEnd p f (s ++ [crChar]) = none := by
  simp only [withEnd, hc s]
  cases hps : p s with
  | none => rfl
  | some r =>
    simp only [crmap]
    have hsub : r.1 <:+ s := hs s r hps
    have hh2 : hashChar ∉ r.1 := fun hmem => hh (hsub.subset hmem)
    rw [end_line_cr hh2]

/-- The blank-line alternative rejects a comment-free line with a trailing
CR. -/
theorem noData_alt_cr {s : List Char} (hh : hashChar ∉ s) :
    pmap end_line (fun _ => LineResult.NoData) (s ++ [crChar]) = none := by
  simp [pmap, end_line_cr hh]

/-- Every alternative of `parse_line` rejects a comment-free line with a
trailing CR. -/
theorem parse_line_cr {s : List Char} (hh : hashChar ∉ s) :
    parse_line (s ++ [crChar]) = none := by
  simp only [parse_line, porelse,
    noData_alt_cr hh,
    withEnd_cr crs_parse_texcoord1 sfx_parse_texcoord1 LineResult.VertDataLine hh,
    withEnd_cr crs_parse_coord2 sfx_parse_coord2 LineResult.VertDataLine hh,
    withEnd_cr crs_parse_texcoord2 sfx_parse_texcoord2 LineResult.VertDataLine hh,
    withEnd_cr crs_parse_coord3 sfx_parse_coord3 LineResult.VertDataLine hh,
    withEnd_cr crs_parse_normal sfx_parse_normal LineResult.VertDataLine hh,
    withEnd_cr crs_parse_texcoord3 sfx_parse_texcoord3 LineResult.VertDataLine hh,
    withEnd_cr crs_parse_face3 sfx_parse_face3 LineResult.FaceLine hh,
    withEnd_cr crs_parse_face4 sfx_parse_face4 LineResult.FaceLine hh]

/-- C10 counterexample: a line whose match ends in a `#` comment absorbs a
trailing CR into the comment (nom `rest`) and still parses, so it is not
true that every otherwise-matching CR-terminated line yields an `Error`
record. -/
theorem c10_cr_after_comment_parses :
    parse_line lineC10.toList = some ([], LineResult.VertDataLine (VertexData.Coord3 1 2 3)) ∧
    parse_line (lineC10.toList ++ [crChar]) =
      some ([], LineResult.VertDataLine (VertexData.Coord3 1 2 3)) := by
  refine ⟨by decide, by decide⟩

/-- C10 amended: restricted to lines containing no `#` (so that no comment
can absorb the CR), the claim holds: a line that parses on its own yields an
error once a trailing carriage return is appended — so comment-free
otherwise-valid CRLF input parses to all-Error output. -/
theorem c10_cr_line_errors_amended (s : List Char) (res : List Char × LineResult)
    (hnc : hashChar ∉ s) (_hok : parse_line s = some res) :
    parse_line (s ++ [crChar]) = none :=
  parse_line_cr hnc

/-- C10 witness: the comment-free line `v 1.0 2.0 3.0` parses, and with a
trailing CR it fails. -/
theorem c10_cr_line_errors_amended_witness :
    parse_line (lineC10b.toList ++ [crChar]) = none :=
  c10_cr_line_errors_amended lineC10b.toList
    ([], LineResult.VertDataLine (VertexData.Coord3 1 2 3)) (by decide) (by decide)

end Objld
